import Mathlib

/-!
Verification development for the torn-reporting repository.

The definitions below are a shallow embedding of the Python sources
`v3_war_report.py` and `war_report.py`:

* JSON dictionaries keyed by strings are modelled as association lists
  `List (String × α)`; the semantics of building a Python `dict` from a
  sequence of key/value pairs (last value wins, first insertion position
  kept) is captured by `pyDict` / `pyDictInsert`.
* Machine floats are modelled as exact rationals `ℚ` (the spec's numeric
  policy is decimal arithmetic with no intermediate rounding).
* A JSON field that may be absent (Python `dict.get`) is an `Option`.
-/

namespace TornReport

-- ### Definitions

/-- Insert a key/value pair into an association list with Python `dict`
assignment semantics: if the key is present, the value is replaced in
place (the entry keeps its position); otherwise the pair is appended. -/
def pyDictInsert {α : Type} (m : List (String × α)) (k : String) (v : α) :
    List (String × α) :=
  if m.any (fun p => decide (p.1 = k)) then
    m.map (fun p => if p.1 = k then (k, v) else p)
  else
    m ++ [(k, v)]

/-- Fold a list of key/value pairs into an association list, mirroring a
Python `dict` built from a sequence of pairs (a dict comprehension or
`dict(pairs)`): the last value for each key wins. -/
def pyDict {α : Type} (l : List (String × α)) : List (String × α) :=
  l.foldl (fun m q => pyDictInsert m q.1 q.2) []

/-- Generalisation of `pyDict` to an arbitrary starting dictionary,
used for induction. -/
def pyDictFrom {α : Type} (m : List (String × α)) (l : List (String × α)) :
    List (String × α) :=
  l.foldl (fun m q => pyDictInsert m q.1 q.2) m

/-- Look up the first entry stored under key `c` (Python `d[c]` / `c in d`:
a dict holds at most one entry per key, so the first match is the entry). -/
def findEntry {α : Type} : List (String × α) → String → Option (String × α)
  | [], _ => none
  | p :: m, c => if p.1 = c then some p else findEntry m c

/-- The keys of an association list. -/
def keysOf {α : Type} (m : List (String × α)) : List String :=
  m.map (fun p => p.1)


/-- Update the value stored under key `k` in place (Python `d[k] = f(d[k])`
or mutation of the stored record). Entries with other keys are untouched. -/
def updateEntry {α : Type} (m : List (String × α)) (k : String) (f : α → α) :
    List (String × α) :=
  m.map (fun p => if p.1 = k then (p.1, f p.2) else p)

/-- Python `str()` applied to an optional integer (`str(attack.get('x'))`
renders a missing field as the string "None"). -/
def pyStr : Option Int → String
  | none => "None"
  | some n => toString n

/-- One attack record as used by `war_report.py` / `v3_war_report.py`.
Fields read with `attack.get(...)` (which may be absent in the JSON) are
`Option`s; `code` is the unique event key used for deduplication and
`timestamp_ended` is the pagination cursor. -/
structure Attack where
  code : String
  timestamp_ended : Int
  ranked_war : Option Int
  attacker_id : Option Int
  defender_id : Option Int
  attacker_faction : Option Int
  defender_faction : Option Int
  respect_gain : Option ℚ
  chain_bonus : Option ℚ
  result : Option String
  attacker_name : Option String
deriving DecidableEq

/-- First element of `E` whose `code` is `c`. -/
def firstWithCode : List Attack → String → Option Attack
  | [], _ => none
  | b :: E, c => if b.code = c then some b else firstWithCode E c

/-- Last element of `E` whose `code` is `c` (the latest-fetched
observation of that event). -/
def lastWithCode (E : List Attack) (c : String) : Option Attack :=
  firstWithCode E.reverse c

/-- Deduplication of the collected attack list, modelling
`list({attack['code']: attack for attack in all_attacks}.values())`
(v3_war_report.py line 142, war_report.py line 89). -/
def dedupe (l : List Attack) : List Attack :=
  (pyDict (l.map (fun a => (a.code, a)))).map (fun p => p.2)

/-- The `timestamp_ended` of the last record of the chunk `a :: rest`
(Python `attacks_chunk[-1]['timestamp_ended']`). -/
def lastTimestamp (a : Attack) (rest : List Attack) : Int :=
  match rest with
  | [] => a.timestamp_ended
  | b :: rest => lastTimestamp b rest

/-- The pagination loop of `get_all_attacks` (v3_war_report.py lines
122-139, war_report.py lines 68-86).  `page cur` abstracts the API call
for the window `[cur, endT]`: `none` models a failed request or a payload
without an `attacks` key (the `else: break` branch), `some chunk` the
list of returned attack records.  The loop accumulates chunks, advancing
the cursor to the last record's `timestamp_ended`, and stops on an empty
chunk or when the cursor fails to advance strictly. -/
def fetchLoop (page : Int → Option (List Attack)) (endT : Int) (cur : Int)
    (acc : List Attack) : List Attack :=
  if cur < endT then
    match page cur with
    | none => acc
    | some [] => acc
    | some (a :: rest) =>
        if lastTimestamp a rest > cur then
          fetchLoop page endT (lastTimestamp a rest) (acc ++ (a :: rest))
        else
          acc ++ (a :: rest)
  else acc
termination_by (endT - cur).toNat
decreasing_by
  simp_wf
  omega

/-- Step-indexed version of `fetchLoop`: `none` means the fuel ran out
before the loop finished.  Termination of the Python `while` loop is the
statement that some finite fuel always suffices. -/
def fetchLoopFuel (page : Int → Option (List Attack)) :
    Nat → Int → Int → List Attack → Option (List Attack)
  | 0, _, _, _ => none
  | fuel + 1, endT, cur, acc =>
      if cur < endT then
        match page cur with
        | none => some acc
        | some [] => some acc
        | some (a :: rest) =>
            if lastTimestamp a rest > cur then
              fetchLoopFuel page fuel endT (lastTimestamp a rest) (acc ++ (a :: rest))
            else
              some (acc ++ (a :: rest))
      else some acc

/-- `get_all_attacks`: run the pagination loop from the start timestamp,
then deduplicate by event code. -/
def get_all_attacks (page : Int → Option (List Attack))
    (start_timestamp end_timestamp : Int) : List Attack :=
  dedupe (fetchLoop page end_timestamp start_timestamp [])

/-- Per-member contribution accumulator of `v3_war_report.py`
(the dict literal at lines 169-178). -/
structure MemberStats where
  name : String
  respect_gained : ℚ
  base_respect_gained : ℚ
  hits_made : Nat
  assists : Nat
  hits_taken : Nat
  defends : Nat
  stalemates : Nat
deriving DecidableEq

/-- A zeroed accumulator for a roster member with display name `nm`. -/
def initMember (nm : String) : MemberStats :=
  { name := nm, respect_gained := 0, base_respect_gained := 0,
    hits_made := 0, assists := 0, hits_taken := 0, defends := 0,
    stalemates := 0 }

/-- The part of one faction's war-report record that the scripts read:
its display name and its member roster (member id to member name). -/
structure FactionInfo where
  name : String
  members : List (String × String)
deriving DecidableEq

/-- Result of `process_war_data` (v3): the sorted active-member ledger
plus the two faction display names (the raw `war_details` passthrough is
omitted as it is only echoed into the report). -/
structure ProcessedData where
  member_stats : List (String × MemberStats)
  our_faction_name : String
  opponent_faction_name : String
deriving DecidableEq

/-- The chain-bonus divisor actually used at v3_war_report.py line 199:
`float(attack.get('modifiers', {}).get('chain_bonus', 1.0) or 1.0)`.
A missing or null modifier is `none` (the `.get` default / the `or`
coercion of Python `None`), and a stored `0` is falsy so the `or` also
replaces it by `1.0`. -/
def chainBonusOf (a : Attack) : ℚ :=
  match a.chain_bonus with
  | none => 1
  | some c => if c = 0 then 1 else c

/-- The base-respect contribution of one offensive attack
(v3_war_report.py line 200): `respect_gain / chain_bonus`. -/
def baseRespectOf (a : Attack) : ℚ :=
  a.respect_gain.getD 0 / chainBonusOf a

/-- Classification of a single attack record in `process_war_data` of
`v3_war_report.py` (lines 183-217), as a transformation of the member
ledger: non-ranked-war events are skipped; an offensive hit whose
attacker is on the ledger is credited with a hit, respect and base
respect (plus an assist when the result is "Assist"); a defensive event
whose defender is on the ledger is credited by result. An attacker or
defender absent from the ledger leaves it unchanged. -/
def v3_apply_attack (our op : Int) (stats : List (String × MemberStats))
    (a : Attack) : List (String × MemberStats) :=
  if a.ranked_war ≠ some 1 then stats
  else
    let attacker_id_str := pyStr a.attacker_id
    let defender_id_str := pyStr a.defender_id
    let stats1 :=
      if (a.attacker_faction = some our ∧ a.defender_faction = some op) ∧
          stats.any (fun p => decide (p.1 = attacker_id_str)) = true then
        updateEntry stats attacker_id_str (fun st =>
          let respect_gain := a.respect_gain.getD 0
          let st1 := { st with
            hits_made := st.hits_made + 1,
            respect_gained := st.respect_gained + respect_gain,
            base_respect_gained := st.base_respect_gained + baseRespectOf a }
          if a.result = some "Assist" then
            { st1 with assists := st1.assists + 1 }
          else st1)
      else stats
    if (a.defender_faction = some our ∧ a.attacker_faction = some op) ∧
        stats1.any (fun p => decide (p.1 = defender_id_str)) = true then
      updateEntry stats1 defender_id_str (fun st =>
        if a.result = some "Lost" then
          { st with hits_taken := st.hits_taken + 1 }
        else if a.result = some "Stalemate" then
          { st with stalemates := st.stalemates + 1 }
        else
          { st with defends := st.defends + 1 })
    else stats1

/-- Fold `v3_apply_attack` over the whole attack list (the `for attack in
all_attacks` loop). -/
def accumulate_attacks (our op : Int) (stats0 : List (String × MemberStats))
    (attacks : List Attack) : List (String × MemberStats) :=
  attacks.foldl (v3_apply_attack our op) stats0

/-- The first faction in the war report whose id differs from ours
(v3_war_report.py lines 153-157). -/
def opponentEntry (factions : List (Int × FactionInfo)) (our : Int) :
    Option (Int × FactionInfo) :=
  factions.find? (fun p => decide (¬ p.1 = our))

/-- The ledger seeded from our faction's war roster, one zeroed entry per
member (v3_war_report.py lines 165-178). -/
def initial_member_stats (factions : List (Int × FactionInfo)) (our : Int) :
    List (String × MemberStats) :=
  (((factions.find? (fun p => decide (p.1 = our))).map
      (fun p => p.2.members)).getD []).map
    (fun q => (q.1, initMember q.2))

/-- The activity filter (v3_war_report.py line 221): keep exactly the
members with strictly positive accumulated respect. -/
def active_ledger (stats : List (String × MemberStats)) :
    List (String × MemberStats) :=
  stats.filter (fun p => decide (0 < p.2.respect_gained))

/-- Stable sort by respect descending (v3_war_report.py line 222). -/
def sortByRespectDesc (l : List (String × MemberStats)) :
    List (String × MemberStats) :=
  l.insertionSort (fun x y => y.2.respect_gained ≤ x.2.respect_gained)

/-- The member ledger that `process_war_data` returns: accumulate all
attacks onto the seeded roster, drop inactive members, sort by respect. -/
def final_ledger (factions : List (Int × FactionInfo))
    (attacks : List Attack) (our op : Int) :
    List (String × MemberStats) :=
  sortByRespectDesc (active_ledger
    (accumulate_attacks our op (initial_member_stats factions our) attacks))

/-- `process_war_data` of `v3_war_report.py` (lines 147-229).  Returns
`none` when no opponent faction can be determined (including the Python
falsiness of an opponent id of `0`). -/
def process_war_data (factions : List (Int × FactionInfo))
    (all_attacks : List Attack) (our_faction_id : Int) :
    Option ProcessedData :=
  match opponentEntry factions our_faction_id with
  | none => none
  | some op =>
      if op.1 = 0 then none
      else some
        { member_stats := final_ledger factions all_attacks our_faction_id op.1,
          our_faction_name :=
            ((factions.find? (fun p => decide (p.1 = our_faction_id))).map
              (fun p => p.2.name)).getD "Your Faction",
          opponent_faction_name := op.2.name }

/-- Per-member accumulator of the v1 script `war_report.py`
(the dict literal at line 125). -/
structure V1Stats where
  respect_gained : ℚ
  name : String
deriving DecidableEq

/-- Classification of a single attack in `process_war_data` of
`war_report.py` (lines 129-148): events missing an attacker or defender
id are skipped; a ranked-war hit by our faction on the opponent credits
the attacker's respect, creating a synthetic entry named from the
event's own `attacker_name` field (default "Unknown (Ex-member)") when
the attacker is not on the ledger. -/
def v1_apply_attack (our op : Int) (stats : List (String × V1Stats))
    (a : Attack) : List (String × V1Stats) :=
  if a.attacker_id = none ∨ a.defender_id = none then stats
  else if (a.attacker_faction = some our ∧ a.defender_faction = some op) ∧
      a.ranked_war = some 1 then
    let attacker_id := pyStr a.attacker_id
    let respect_gain := a.respect_gain.getD 0
    if stats.any (fun p => decide (p.1 = attacker_id)) = true then
      updateEntry stats attacker_id (fun st =>
        { st with respect_gained := st.respect_gained + respect_gain })
    else
      stats ++ [(attacker_id,
        { respect_gained := respect_gain,
          name := a.attacker_name.getD "Unknown (Ex-member)" })]
  else stats

/-- The payout settings read from the active preset in
`calculate_final_payouts` (v3_war_report.py lines 243-246), already
parsed to their value types. -/
structure Settings where
  use_bonus_respect : Bool
  assist_payment_type : String
  assist_payment_value : Int
  penalty_per_hit_taken : Int
deriving DecidableEq

/-- The settings obtained from an empty preset dict `{}`: every
`settings.get` falls back to its default
(`use_bonus_respect='true'`, `assist_payment_type='none'`,
`assist_payment_value='0'`, `penalty_per_hit_taken='0'`). -/
def defaultSettings : Settings :=
  { use_bonus_respect := true, assist_payment_type := "none",
    assist_payment_value := 0, penalty_per_hit_taken := 0 }

/-- Preset selection in `main` (v3_war_report.py lines 504-510): a named
preset found in the config is used; an unknown preset name only logs a
warning and leaves `active_preset = {}`, i.e. the default settings. -/
def resolve_preset (presets : List (String × Settings))
    (preset_name : Option String) : Settings :=
  match preset_name with
  | none => defaultSettings
  | some nm =>
      match findEntry presets nm with
      | some p => p.2
      | none => defaultSettings

/-- A member's record after `calculate_final_payouts` has attached the
payout keys (v3_war_report.py lines 280-294); `stats` holds the
contribution fields the record carried on entry. -/
structure PayoutStats where
  stats : MemberStats
  guaranteed_payout : ℚ
  penalty_amount : ℚ
  assist_payout : ℚ
  participation_payout : ℚ
  adjustments : ℚ
  respect_payout : ℚ
  final_payout : ℚ
deriving DecidableEq

/-- Result of `calculate_final_payouts`.  The Python function returns
the *input* `member_stats` list unchanged when a numeric input fails to
parse (line 241); `invalidInput` records that fallback return value.
`breakdown` is the normal return: the empty list or the sorted list of
members with payout fields attached. -/
inductive PayoutResult where
  | invalidInput (original : List (String × MemberStats))
  | breakdown (members : List (String × PayoutStats))
deriving DecidableEq

/-- The member list carried by a `PayoutResult` breakdown. -/
def membersOf : PayoutResult → List (String × PayoutStats)
  | .invalidInput _ => []
  | .breakdown l => l

/-- The respect figure a member is paid on (v3_war_report.py line 277):
bonus-inclusive respect, or chain-normalized base respect. -/
def respectBasis (s : Settings) (st : MemberStats) : ℚ :=
  if s.use_bonus_respect then st.respect_gained else st.base_respect_gained

/-- Sum of the selected respect figure over the ledger (line 278). -/
def totalRespectToShare (s : Settings) (md : List (String × MemberStats)) : ℚ :=
  (md.map (fun p => respectBasis s p.2)).sum

/-- Total assists over the ledger (line 263). -/
def totalAssists (md : List (String × MemberStats)) : Nat :=
  (md.map (fun p => p.2.assists)).sum

/-- Total hits taken over the ledger (line 264). -/
def totalHitsTaken (md : List (String × MemberStats)) : Nat :=
  (md.map (fun p => p.2.hits_taken)).sum

/-- `faction_take = prize_total * (faction_share_percent / 100)` (line 255). -/
def factionTake (prize faction_share : Int) : ℚ :=
  (prize : ℚ) * ((faction_share : ℚ) / 100)

/-- `member_pool = prize_total - faction_take` (line 256). -/
def memberPool (prize faction_share : Int) : ℚ :=
  (prize : ℚ) - factionTake prize faction_share

/-- `guaranteed_pool = member_pool * (guaranteed_share_percent / 100)` (line 258). -/
def guaranteedPool (prize faction_share guaranteed_share : Int) : ℚ :=
  memberPool prize faction_share * ((guaranteed_share : ℚ) / 100)

/-- `guaranteed_pool / participant_count if participant_count > 0 else 0`
(line 259). -/
def guaranteedPerMember (prize faction_share guaranteed_share : Int)
    (participant_count : Nat) : ℚ :=
  if 0 < participant_count then
    guaranteedPool prize faction_share guaranteed_share / (participant_count : ℚ)
  else 0

/-- `adjustable_pool = member_pool - guaranteed_pool` (line 261). -/
def adjustablePool (prize faction_share guaranteed_share : Int) : ℚ :=
  memberPool prize faction_share - guaranteedPool prize faction_share guaranteed_share

/-- `total_assist_payout` (lines 266-268): flat assists only. -/
def totalAssistPayout (s : Settings) (md : List (String × MemberStats)) : ℚ :=
  if s.assist_payment_type = "flat" then
    (totalAssists md : ℚ) * (s.assist_payment_value : ℚ)
  else 0

/-- `total_penalty_deductions = total_hits_taken * penalty_per_hit_taken`
(line 270). -/
def totalPenaltyDeductions (s : Settings) (md : List (String × MemberStats)) : ℚ :=
  (totalHitsTaken md : ℚ) * (s.penalty_per_hit_taken : ℚ)

/-- The participation pool before the negativity floor (line 272). -/
def participationPoolRaw (s : Settings) (prize faction_share guaranteed_share : Int)
    (md : List (String × MemberStats)) : ℚ :=
  adjustablePool prize faction_share guaranteed_share -
    totalAssistPayout s md - totalPenaltyDeductions s md

/-- The participation pool, floored at zero (lines 273-275). -/
def participationPool (s : Settings) (prize faction_share guaranteed_share : Int)
    (md : List (String × MemberStats)) : ℚ :=
  if participationPoolRaw s prize faction_share guaranteed_share md < 0 then 0
  else participationPoolRaw s prize faction_share guaranteed_share md

/-- The per-member payout record computed inside the loop at
v3_war_report.py lines 280-294. -/
def mkPayout (s : Settings) (gpm pp total_respect : ℚ) (st : MemberStats) :
    PayoutStats :=
  let penalty_amount := (st.hits_taken : ℚ) * (s.penalty_per_hit_taken : ℚ)
  let assist_payout :=
    if s.assist_payment_type = "flat" then
      (st.assists : ℚ) * (s.assist_payment_value : ℚ)
    else 0
  let respect_share :=
    if total_respect > 0 then respectBasis s st / total_respect else 0
  let participation_payout := pp * respect_share
  let adjustments := assist_payout - penalty_amount
  let respect_payout := gpm + participation_payout
  { stats := st, guaranteed_payout := gpm, penalty_amount := penalty_amount,
    assist_payout := assist_payout, participation_payout := participation_payout,
    adjustments := adjustments, respect_payout := respect_payout,
    final_payout := respect_payout + adjustments }

/-- Stable sort by final payout descending (line 296). -/
def sortByFinalDesc (l : List (String × PayoutStats)) :
    List (String × PayoutStats) :=
  l.insertionSort (fun x y => y.2.final_payout ≤ x.2.final_payout)

/-- `calculate_final_payouts` (v3_war_report.py lines 231-299).  The
three `_str` inputs model the `int(...)` parses inside the `try` block
(lines 235-241): `none` stands for a string that fails to parse, in
which case the Python function logs an error and returns the input
`member_stats` list itself. -/
def calculate_final_payouts (settings : Settings)
    (member_stats : List (String × MemberStats))
    (prize_total_str faction_share_str guaranteed_share_str : Option Int) :
    PayoutResult :=
  match prize_total_str, faction_share_str, guaranteed_share_str with
  | some prize_total, some faction_share_percent, some guaranteed_share_percent =>
      let member_data := pyDict member_stats
      if member_data.isEmpty then .breakdown []
      else
        let gpm := guaranteedPerMember prize_total faction_share_percent
          guaranteed_share_percent member_data.length
        let pp := participationPool settings prize_total faction_share_percent
          guaranteed_share_percent member_data
        let tr := totalRespectToShare settings member_data
        .breakdown (sortByFinalDesc
          (member_data.map (fun q => (q.1, mkPayout settings gpm pp tr q.2))))
  | _, _, _ => .invalidInput member_stats

/-- Sum of all members' final payouts in a breakdown. -/
def sumFinalPayout (r : PayoutResult) : ℚ :=
  ((membersOf r).map (fun q => q.2.final_payout)).sum

-- ### Theorems

theorem pyDict_eq_pyDictFrom {α : Type} (l : List (String × α)) :
    pyDict l = pyDictFrom [] l := rfl

theorem pyDictFrom_cons {α : Type} (m : List (String × α)) (q : String × α)
    (l : List (String × α)) :
    pyDictFrom m (q :: l) = pyDictFrom (pyDictInsert m q.1 q.2) l := rfl

theorem keysOf_pyDictInsert_of_mem {α : Type} (m : List (String × α))
    (k : String) (v : α) (h : m.any (fun p => decide (p.1 = k)) = true) :
    keysOf (pyDictInsert m k v) = keysOf m := by
  unfold pyDictInsert
  rw [if_pos h]
  unfold keysOf
  rw [List.map_map]
  apply List.map_congr_left
  intro p _
  by_cases hp : p.1 = k
  · simp [hp]
  · simp [hp]

theorem keysOf_pyDictInsert_of_not_mem {α : Type} (m : List (String × α))
    (k : String) (v : α) (h : m.any (fun p => decide (p.1 = k)) = false) :
    keysOf (pyDictInsert m k v) = keysOf m ++ [k] := by
  unfold pyDictInsert
  rw [if_neg (by simp [h])]
  simp [keysOf]

theorem nodup_keysOf_pyDictInsert {α : Type} (m : List (String × α))
    (k : String) (v : α) (h : (keysOf m).Nodup) :
    (keysOf (pyDictInsert m k v)).Nodup := by
  cases hany : m.any (fun p => decide (p.1 = k)) with
  | true => rw [keysOf_pyDictInsert_of_mem m k v hany]; exact h
  | false =>
      rw [keysOf_pyDictInsert_of_not_mem m k v hany]
      have hk : k ∉ keysOf m := by
        intro hmem
        simp only [keysOf, List.mem_map] at hmem
        obtain ⟨p, hp, hpk⟩ := hmem
        have := List.any_eq_false.mp hany p hp
        simp [hpk] at this
      simp [List.nodup_append, h, hk]

theorem nodup_keysOf_pyDictFrom {α : Type} (l : List (String × α)) :
    ∀ m : List (String × α), (keysOf m).Nodup →
      (keysOf (pyDictFrom m l)).Nodup := by
  induction l with
  | nil => intro m h; exact h
  | cons q l ih =>
      intro m h
      rw [pyDictFrom_cons]
      exact ih _ (nodup_keysOf_pyDictInsert m q.1 q.2 h)

theorem nodup_keysOf_pyDict {α : Type} (l : List (String × α)) :
    (keysOf (pyDict l)).Nodup := by
  rw [pyDict_eq_pyDictFrom]
  exact nodup_keysOf_pyDictFrom l [] List.nodup_nil

/-- Building a Python dict from pairs with pairwise-distinct keys returns
exactly those pairs in order. -/
theorem pyDictFrom_of_nodup {α : Type} (l : List (String × α)) :
    ∀ m : List (String × α), (keysOf (m ++ l)).Nodup →
      pyDictFrom m l = m ++ l := by
  induction l with
  | nil => intro m _; simp [pyDictFrom]
  | cons q l ih =>
      intro m h
      have hq : q.1 ∉ keysOf m := by
        intro hmem
        have h' : (keysOf m ++ keysOf (q :: l)).Nodup := by
          simpa [keysOf] using h
        rcases List.nodup_append.mp h' with ⟨_, _, hdisj⟩
        exact hdisj hmem (by simp [keysOf])
      have hins : pyDictInsert m q.1 q.2 = m ++ [q] := by
        unfold pyDictInsert
        have hany : m.any (fun p => decide (p.1 = q.1)) = false := by
          rw [List.any_eq_false]
          intro p hp
          simp only [decide_eq_true_eq]
          intro hpk
          exact hq (hpk ▸ List.mem_map_of_mem (fun p => p.1) hp)
        rw [if_neg (by simp [hany])]
      rw [pyDictFrom_cons, hins]
      have : (keysOf ((m ++ [q]) ++ l)).Nodup := by
        simpa [List.append_assoc] using h
      rw [ih (m ++ [q]) this]
      simp

theorem pyDict_of_nodup {α : Type} (l : List (String × α))
    (h : (keysOf l).Nodup) : pyDict l = l := by
  rw [pyDict_eq_pyDictFrom, pyDictFrom_of_nodup l [] (by simpa [keysOf] using h)]
  simp

theorem mem_pyDictInsert {α : Type} {m : List (String × α)} {k : String}
    {v : α} {p : String × α} (h : p ∈ pyDictInsert m k v) :
    p ∈ m ∨ p = (k, v) := by
  unfold pyDictInsert at h
  split at h
  · rcases List.mem_map.mp h with ⟨q, hq, hqe⟩
    by_cases hk : q.1 = k
    · right; simp [hk] at hqe; exact hqe.symm
    · left; simp [hk] at hqe; exact hqe ▸ hq
  · rcases List.mem_append.mp h with h' | h'
    · exact Or.inl h'
    · right; simpa using h'

theorem mem_pyDictFrom {α : Type} (l : List (String × α)) :
    ∀ (m : List (String × α)) (p : String × α),
      p ∈ pyDictFrom m l → p ∈ m ∨ p ∈ l := by
  induction l with
  | nil => intro m p h; exact Or.inl h
  | cons q l ih =>
      intro m p h
      rw [pyDictFrom_cons] at h
      rcases ih _ p h with h' | h'
      · rcases mem_pyDictInsert h' with h'' | h''
        · exact Or.inl h''
        · right; simp [h'']
      · right; exact List.mem_cons_of_mem q h'

theorem mem_pyDict {α : Type} {l : List (String × α)} {p : String × α}
    (h : p ∈ pyDict l) : p ∈ l := by
  rw [pyDict_eq_pyDictFrom] at h
  rcases mem_pyDictFrom l [] p h with h' | h'
  · cases h'
  · exact h'

theorem findEntry_append {α : Type} (m m' : List (String × α)) (c : String) :
    findEntry (m ++ m') c = (findEntry m c).or (findEntry m' c) := by
  induction m with
  | nil => simp [findEntry]
  | cons p m ih =>
      by_cases hp : p.1 = c
      · simp [findEntry, hp]
      · simp [findEntry, hp, ih]

theorem findEntry_map_update {α : Type} (m : List (String × α)) (k c : String)
    (v : α) :
    findEntry (m.map fun p => if p.1 = k then (k, v) else p) c =
      if c = k then (if m.any (fun p => decide (p.1 = k)) then some (k, v) else none)
      else findEntry m c := by
  induction m with
  | nil => by_cases hc : c = k <;> simp [findEntry, hc]
  | cons p m ih =>
      by_cases hp : p.1 = k <;> by_cases hc : c = k
      · simp [findEntry, hp, hc]
      · simp [findEntry, hp, hc, ih, Ne.symm hc]
      · subst hc
        simp [findEntry, hp, ih]
        rw [decide_eq_false hp, Bool.false_or]
      · by_cases hpc : p.1 = c
        · simp [findEntry, hp, hpc, hc]
        · simp [findEntry, hp, hpc, hc, ih]

theorem findEntry_none_of_any_false {α : Type} (m : List (String × α))
    (k : String) (hany : m.any (fun p => decide (p.1 = k)) = false) :
    findEntry m k = none := by
  induction m with
  | nil => rfl
  | cons p m ih =>
      simp only [List.any_cons, Bool.or_eq_false_iff] at hany
      have hp : ¬ p.1 = k := by simpa using hany.1
      simp [findEntry, hp, ih hany.2]

theorem findEntry_pyDictInsert {α : Type} (m : List (String × α))
    (k c : String) (v : α) :
    findEntry (pyDictInsert m k v) c =
      if c = k then some (k, v) else findEntry m c := by
  by_cases hany : m.any (fun p => decide (p.1 = k)) = true
  · unfold pyDictInsert
    rw [if_pos hany, findEntry_map_update, hany]
    simp
  · have hf : m.any (fun p => decide (p.1 = k)) = false := by
      cases h : m.any (fun p => decide (p.1 = k)) with
      | true => exact absurd h hany
      | false => rfl
    unfold pyDictInsert
    rw [if_neg hany, findEntry_append]
    by_cases hc : c = k
    · subst hc
      rw [findEntry_none_of_any_false m c hf]
      simp [findEntry]
    · simp [hc, findEntry, Ne.symm hc]

theorem findEntry_pyDictFrom {α : Type} (l : List (String × α)) :
    ∀ (m : List (String × α)) (c : String),
      findEntry (pyDictFrom m l) c =
        (findEntry l.reverse c).or (findEntry m c) := by
  induction l with
  | nil => intro m c; simp [pyDictFrom, findEntry]
  | cons q l ih =>
      intro m c
      rw [pyDictFrom_cons, ih, List.reverse_cons, findEntry_append,
        findEntry_pyDictInsert, Option.or_assoc]
      congr 1
      by_cases hc : c = q.1
      · simp [hc, findEntry]
      · simp [hc, findEntry, Ne.symm hc]

theorem findEntry_pyDict {α : Type} (l : List (String × α)) (c : String) :
    findEntry (pyDict l) c = findEntry l.reverse c := by
  rw [pyDict_eq_pyDictFrom, findEntry_pyDictFrom]
  simp [findEntry]

theorem findEntry_of_mem_nodup {α : Type} {m : List (String × α)}
    {p : String × α} (h : (keysOf m).Nodup) (hp : p ∈ m) :
    findEntry m p.1 = some p := by
  induction m with
  | nil => cases hp
  | cons q m ih =>
      rcases List.mem_cons.mp hp with hq | hq
      · simp [findEntry, hq]
      · have hq1 : ¬ q.1 = p.1 := by
          intro he
          have : q.1 ∈ keysOf m := he ▸ List.mem_map_of_mem (fun p => p.1) hq
          exact (List.nodup_cons.mp (by simpa [keysOf] using h)).1 this
        simp only [findEntry, if_neg hq1]
        exact ih (List.nodup_cons.mp (by simpa [keysOf] using h)).2 hq


theorem findEntry_mem {α : Type} {m : List (String × α)} {c : String}
    {p : String × α} (h : findEntry m c = some p) : p ∈ m := by
  induction m with
  | nil => cases h
  | cons q m ih =>
      by_cases hq : q.1 = c
      · simp [findEntry, hq] at h
        simp [h]
      · simp only [findEntry, if_neg hq] at h
        exact List.mem_cons_of_mem q (ih h)

theorem codeInv_pyDict (E : List Attack) :
    ∀ p ∈ pyDict (E.map (fun a => (a.code, a))), p.1 = p.2.code := by
  intro p hp
  rcases List.mem_map.mp (mem_pyDict hp) with ⟨b, _, hb⟩
  rw [← hb]

theorem codes_dedupe_eq_keys (E : List Attack) :
    (dedupe E).map (fun a => a.code) =
      keysOf (pyDict (E.map (fun a => (a.code, a)))) := by
  unfold dedupe keysOf
  rw [List.map_map]
  apply List.map_congr_left
  intro p hp
  exact (codeInv_pyDict E p hp).symm

theorem dedupe_codes_nodup (E : List Attack) :
    ((dedupe E).map (fun a => a.code)).Nodup := by
  rw [codes_dedupe_eq_keys]
  exact nodup_keysOf_pyDict _

theorem map_pair_dedupe (E : List Attack) :
    (dedupe E).map (fun a => (a.code, a)) =
      pyDict (E.map (fun a => (a.code, a))) := by
  unfold dedupe
  rw [List.map_map]
  have h : ∀ p ∈ pyDict (E.map (fun a => (a.code, a))),
      ((fun a => (a.code, a)) ∘ fun p => p.2) p = id p := by
    intro p hp
    have h1 := codeInv_pyDict E p hp
    cases p with
    | mk x y =>
        simp only [Function.comp, id]
        simp at h1
        rw [h1]
  rw [List.map_congr_left h, List.map_id]

theorem dedupe_idem (E : List Attack) : dedupe (dedupe E) = dedupe E := by
  show (pyDict ((dedupe E).map (fun a => (a.code, a)))).map (fun p => p.2) =
    dedupe E
  rw [map_pair_dedupe, pyDict_of_nodup _ (nodup_keysOf_pyDict _)]
  rfl

theorem findEntry_map_pair (r : List Attack) (c : String) :
    findEntry (r.map (fun b => (b.code, b))) c =
      (firstWithCode r c).map (fun b => (b.code, b)) := by
  induction r with
  | nil => rfl
  | cons b r ih =>
      by_cases hb : b.code = c
      · simp [findEntry, firstWithCode, hb]
      · simp [findEntry, firstWithCode, hb, ih]

theorem findEntry_dedupe_key (E : List Attack) (c : String) :
    findEntry (pyDict (E.map (fun b => (b.code, b)))) c =
      (lastWithCode E c).map (fun b => (b.code, b)) := by
  rw [findEntry_pyDict, ← List.map_reverse, findEntry_map_pair]
  rfl

theorem mem_dedupe_iff (E : List Attack) (a : Attack) :
    a ∈ dedupe E ↔ lastWithCode E a.code = some a := by
  constructor
  · intro h
    unfold dedupe at h
    rcases List.mem_map.mp h with ⟨p, hpM, hpa⟩
    have hinv := codeInv_pyDict E p hpM
    have hfind := findEntry_of_mem_nodup
      (nodup_keysOf_pyDict (E.map (fun b => (b.code, b)))) hpM
    have hp1 : p.1 = a.code := by rw [hinv, hpa]
    rw [hp1, findEntry_dedupe_key] at hfind
    cases hlw : lastWithCode E a.code with
    | none => rw [hlw] at hfind; cases hfind
    | some b =>
        rw [hlw] at hfind
        simp only [Option.map_some'] at hfind
        have hba := congrArg Prod.snd (Option.some.inj hfind)
        simp only at hba
        rw [hba, hpa]
  · intro h
    have hfe : findEntry (pyDict (E.map (fun b => (b.code, b)))) a.code =
        some (a.code, a) := by
      rw [findEntry_dedupe_key, h]
      rfl
    exact List.mem_map.mpr ⟨(a.code, a), findEntry_mem hfe, rfl⟩


theorem fetchLoopFuel_eq (page : Int → Option (List Attack)) :
    ∀ (n : Nat) (endT cur : Int) (acc : List Attack),
      (endT - cur).toNat < n →
      fetchLoopFuel page n endT cur acc =
        some (fetchLoop page endT cur acc) := by
  intro n
  induction n with
  | zero => intro endT cur acc h; exact absurd h (Nat.not_lt_zero _)
  | succ n ih =>
      intro endT cur acc h
      rw [fetchLoop, fetchLoopFuel]
      by_cases hc : cur < endT
      · simp only [if_pos hc]
        cases hp : page cur with
        | none => rfl
        | some chunk =>
            cases chunk with
            | nil => rfl
            | cons a rest =>
                by_cases hl : lastTimestamp a rest > cur
                · simp only [if_pos hl]
                  exact ih endT (lastTimestamp a rest) (acc ++ (a :: rest))
                    (by omega)
                · simp only [if_neg hl]
      · simp only [if_neg hc]


theorem mkPayout_stats (s : Settings) (gpm pp tr : ℚ) (st : MemberStats) :
    (mkPayout s gpm pp tr st).stats = st := rfl

theorem mkPayout_participation (s : Settings) (gpm pp tr : ℚ) (st : MemberStats) :
    (mkPayout s gpm pp tr st).participation_payout =
      pp * (if tr > 0 then respectBasis s st / tr else 0) := rfl

theorem mkPayout_final (s : Settings) (gpm pp tr : ℚ) (st : MemberStats) :
    (mkPayout s gpm pp tr st).final_payout =
      (gpm + pp * (if tr > 0 then respectBasis s st / tr else 0)) +
        ((if s.assist_payment_type = "flat" then
            (st.assists : ℚ) * (s.assist_payment_value : ℚ) else 0) -
          (st.hits_taken : ℚ) * (s.penalty_per_hit_taken : ℚ)) := rfl

theorem sum_map_final (s : Settings) (gpm pp tr : ℚ)
    (md : List (String × MemberStats)) :
    ((md.map (fun q => (q.1, mkPayout s gpm pp tr q.2))).map
        (fun q => q.2.final_payout)).sum =
      (md.length : ℚ) * gpm +
        pp * (md.map (fun q =>
          if tr > 0 then respectBasis s q.2 / tr else 0)).sum +
        (md.map (fun q =>
          if s.assist_payment_type = "flat" then
            (q.2.assists : ℚ) * (s.assist_payment_value : ℚ) else 0)).sum -
        (md.map (fun q =>
          (q.2.hits_taken : ℚ) * (s.penalty_per_hit_taken : ℚ))).sum := by
  induction md with
  | nil => simp
  | cons q md ih =>
      simp only [List.map_cons, List.sum_cons, List.length_cons, mkPayout_final,
        ih]
      push_cast
      ring

theorem sum_map_div (md : List (String × MemberStats)) (r : ℚ)
    (f : (String × MemberStats) → ℚ) :
    (md.map (fun q => f q / r)).sum = (md.map f).sum / r := by
  induction md with
  | nil => simp
  | cons q md ih => simp [ih, add_div]

theorem sum_shares_pos (s : Settings) (md : List (String × MemberStats))
    (tr : ℚ) (htr : tr = totalRespectToShare s md) (h : 0 < tr) :
    (md.map (fun q => if tr > 0 then respectBasis s q.2 / tr else 0)).sum = 1 := by
  simp only [if_pos h]
  have htr' : (md.map (fun q => respectBasis s q.2)).sum = tr := by
    rw [htr]; rfl
  rw [sum_map_div, htr', div_self (ne_of_gt h)]

theorem sum_shares_nonpos (s : Settings) (md : List (String × MemberStats))
    (tr : ℚ) (h : ¬ 0 < tr) :
    (md.map (fun q => if tr > 0 then respectBasis s q.2 / tr else 0)).sum = 0 := by
  simp [h]

theorem sum_map_natcast_mul (v : ℚ) (f : (String × MemberStats) → Nat)
    (md : List (String × MemberStats)) :
    (md.map (fun q => (f q : ℚ) * v)).sum = (((md.map f).sum : Nat) : ℚ) * v := by
  induction md with
  | nil => simp
  | cons q md ih =>
      simp only [List.map_cons, List.sum_cons, ih]
      push_cast
      ring

theorem sum_assists_eq (s : Settings) (md : List (String × MemberStats)) :
    (md.map (fun q =>
      if s.assist_payment_type = "flat" then
        (q.2.assists : ℚ) * (s.assist_payment_value : ℚ) else 0)).sum =
      totalAssistPayout s md := by
  by_cases hf : s.assist_payment_type = "flat"
  · simp only [if_pos hf, totalAssistPayout, totalAssists]
    exact sum_map_natcast_mul _ _ md
  · simp [totalAssistPayout, hf]

theorem sum_penalty_eq (s : Settings) (md : List (String × MemberStats)) :
    (md.map (fun q =>
      (q.2.hits_taken : ℚ) * (s.penalty_per_hit_taken : ℚ))).sum =
      totalPenaltyDeductions s md := by
  simp only [totalPenaltyDeductions, totalHitsTaken]
  exact sum_map_natcast_mul _ _ md

theorem sum_final_sort (l : List (String × PayoutStats)) :
    ((sortByFinalDesc l).map (fun q => q.2.final_payout)).sum =
      (l.map (fun q => q.2.final_payout)).sum :=
  List.Perm.sum_eq (List.Perm.map _ (List.perm_insertionSort _ l))

theorem calc_eq_breakdown (s : Settings) (ledger : List (String × MemberStats))
    (p f g : Int) (hne : (pyDict ledger).isEmpty = false) :
    calculate_final_payouts s ledger (some p) (some f) (some g) =
      .breakdown (sortByFinalDesc ((pyDict ledger).map (fun q => (q.1,
        mkPayout s
          (guaranteedPerMember p f g (pyDict ledger).length)
          (participationPool s p f g (pyDict ledger))
          (totalRespectToShare s (pyDict ledger)) q.2)))) := by
  unfold calculate_final_payouts
  simp only [hne]
  rfl

theorem calc_nil (s : Settings) (p f g : Int) :
    calculate_final_payouts s [] (some p) (some f) (some g) = .breakdown [] := rfl

theorem calc_parse_fail (s : Settings) (ledger : List (String × MemberStats))
    (f g : Option Int) :
    calculate_final_payouts s ledger none f g = .invalidInput ledger := rfl


theorem sumFinalPayout_closed (s : Settings) (p f g : Int)
    (ledger : List (String × MemberStats))
    (hnd : (keysOf ledger).Nodup) (hne : ledger ≠ [])
    (hR : 0 < totalRespectToShare s ledger)
    (hpp : 0 ≤ participationPoolRaw s p f g ledger) :
    sumFinalPayout (calculate_final_payouts s ledger (some p) (some f) (some g)) =
      memberPool p f - 2 * totalPenaltyDeductions s ledger := by
  have hpd : pyDict ledger = ledger := pyDict_of_nodup ledger hnd
  have hempty : (pyDict ledger).isEmpty = false := by
    rw [hpd]
    cases ledger with
    | nil => exact absurd rfl hne
    | cons a l => rfl
  unfold sumFinalPayout
  rw [calc_eq_breakdown s ledger p f g hempty]
  simp only [membersOf, hpd]
  rw [sum_final_sort, sum_map_final,
    sum_shares_pos s ledger _ rfl hR, sum_assists_eq, sum_penalty_eq]
  have hlen : ledger.length ≠ 0 := by
    cases ledger with
    | nil => exact absurd rfl hne
    | cons a l => simp
  have hn : (ledger.length : ℚ) ≠ 0 := by exact_mod_cast hlen
  have hgpm : (ledger.length : ℚ) * guaranteedPerMember p f g ledger.length =
      guaranteedPool p f g := by
    unfold guaranteedPerMember
    rw [if_pos (Nat.pos_of_ne_zero hlen), mul_comm, div_mul_cancel₀ _ hn]
  have hppe : participationPool s p f g ledger =
      participationPoolRaw s p f g ledger := by
    unfold participationPool
    rw [if_neg (not_lt.mpr hpp)]
  rw [hppe, hgpm]
  unfold participationPoolRaw adjustablePool
  ring

/-- C1 (amended): for the standard model, `faction_take + member_pool = P`
holds exactly, and payout conservation holds in the form
`sum(final_payout) + 2 * total_penalty_deductions = member_pool`:
the code deducts each penalty twice, once from the participation pool
(line 272 of v3_war_report.py) and once from the member's own payout
(line 292), so the clawback term is twice the total penalty deductions,
not once as the original claim states.  Hypotheses: distinct member ids,
a non-empty ledger, positive total respect, and a participation pool that
is not driven below the zero floor. -/
theorem claim_payout_conservation (s : Settings) (p f g : Int)
    (ledger : List (String × MemberStats))
    (hnd : (keysOf ledger).Nodup) (hne : ledger ≠ [])
    (hR : 0 < totalRespectToShare s ledger)
    (hpp : 0 ≤ participationPoolRaw s p f g ledger) :
    sumFinalPayout (calculate_final_payouts s ledger (some p) (some f) (some g)) +
        2 * totalPenaltyDeductions s ledger = memberPool p f ∧
      factionTake p f + memberPool p f = (p : ℚ) := by
  constructor
  · rw [sumFinalPayout_closed s p f g ledger hnd hne hR hpp]
    ring
  · unfold memberPool
    ring

/-- Witness for C1, the spec's own example scenario: members with respect
300 and 100, prize 1,000,000, faction share 30, guaranteed share 10
(no penalties, so the clawback term is zero and the payouts sum to the
member pool of 700,000). -/
theorem claim_payout_conservation_witness :
    sumFinalPayout (calculate_final_payouts defaultSettings
        [("1", ⟨"A", 300, 300, 3, 0, 0, 0, 0⟩), ("2", ⟨"B", 100, 100, 1, 0, 0, 0, 0⟩)]
        (some 1000000) (some 30) (some 10)) +
        2 * totalPenaltyDeductions defaultSettings
          [("1", ⟨"A", 300, 300, 3, 0, 0, 0, 0⟩), ("2", ⟨"B", 100, 100, 1, 0, 0, 0, 0⟩)] =
      memberPool 1000000 30 ∧
    factionTake 1000000 30 + memberPool 1000000 30 = (1000000 : ℚ) :=
  claim_payout_conservation defaultSettings 1000000 30 10
    [("1", ⟨"A", 300, 300, 3, 0, 0, 0, 0⟩), ("2", ⟨"B", 100, 100, 1, 0, 0, 0, 0⟩)]
    (by decide) (by decide)
    (by norm_num [totalRespectToShare, respectBasis, defaultSettings])
    (by norm_num [participationPoolRaw, adjustablePool, memberPool, factionTake,
      guaranteedPool, totalAssistPayout, totalPenaltyDeductions, totalAssists,
      totalHitsTaken, defaultSettings])

/-- C1 counterexample: with one member of respect 1 who took one hit and a
penalty of 10 per hit taken, prize 100 and zero shares, the code pays
80 (= member_pool 100 minus twice the penalty 10), so
`sum(final_payout) + total_penalty_deductions = 90 ≠ 100 = member_pool`:
the claimed conservation `sum + clawback ≈ member_pool` fails. -/
theorem claim_payout_conservation_counterexample :
    ¬ (sumFinalPayout (calculate_final_payouts
          ⟨true, "none", 0, 10⟩
          [("1", ⟨"A", 1, 1, 1, 0, 1, 0, 0⟩)]
          (some 100) (some 0) (some 0)) +
        totalPenaltyDeductions ⟨true, "none", 0, 10⟩
          [("1", ⟨"A", 1, 1, 1, 0, 1, 0, 0⟩)] =
        memberPool 100 0) := by
  have hs := sumFinalPayout_closed ⟨true, "none", 0, 10⟩ 100 0 0
    [("1", ⟨"A", 1, 1, 1, 0, 1, 0, 0⟩)] (by decide) (by decide)
    (by norm_num [totalRespectToShare, respectBasis])
    (by norm_num [participationPoolRaw, adjustablePool, memberPool, factionTake,
      guaranteedPool, totalAssistPayout, totalPenaltyDeductions, totalAssists,
      totalHitsTaken])
  rw [hs]
  have htp : totalPenaltyDeductions ⟨true, "none", 0, 10⟩
      [("1", (⟨"A", 1, 1, 1, 0, 1, 0, 0⟩ : MemberStats))] = 10 := by
    norm_num [totalPenaltyDeductions, totalHitsTaken]
  rw [htp]
  norm_num [memberPool, factionTake]

/-- C2: `calculate_final_payouts` leaves every contribution record intact:
projecting each member of the returned breakdown back to its contribution
fields (name, respect_gained, base_respect_gained, hits_made, assists,
hits_taken, defends, stalemates) recovers exactly the input ledger (as a
permutation, since the output is re-sorted by final payout).  The payout
fields are attached in a new structure; the contribution fields are
never written. -/
theorem claim_ledger_not_mutated (s : Settings) (p f g : Int)
    (ledger : List (String × MemberStats)) (hnd : (keysOf ledger).Nodup) :
    ((membersOf (calculate_final_payouts s ledger (some p) (some f) (some g))).map
      (fun q => (q.1, q.2.stats))).Perm ledger := by
  by_cases hne : ledger = []
  · subst hne
    rw [calc_nil]
    simp [membersOf]
  · have hpd : pyDict ledger = ledger := pyDict_of_nodup ledger hnd
    have hempty : (pyDict ledger).isEmpty = false := by
      rw [hpd]
      cases ledger with
      | nil => exact absurd rfl hne
      | cons a l => rfl
    rw [calc_eq_breakdown s ledger p f g hempty]
    simp only [membersOf, hpd]
    have hproj : ((ledger.map (fun q => (q.1, mkPayout s
        (guaranteedPerMember p f g ledger.length)
        (participationPool s p f g ledger)
        (totalRespectToShare s ledger) q.2))).map
          (fun q => (q.1, q.2.stats))) = ledger := by
      rw [List.map_map]
      have hcong : ∀ q ∈ ledger, ((fun q : String × PayoutStats => (q.1, q.2.stats)) ∘
          (fun q : String × MemberStats => (q.1, mkPayout s
            (guaranteedPerMember p f g ledger.length)
            (participationPool s p f g ledger)
            (totalRespectToShare s ledger) q.2))) q = id q := by
        intro q _
        cases q with
        | mk k st => simp [Function.comp, mkPayout_stats]
      rw [List.map_congr_left hcong, List.map_id]
    have hp := List.Perm.map (fun q : String × PayoutStats => (q.1, q.2.stats))
      (List.perm_insertionSort
        (fun x y : String × PayoutStats => y.2.final_payout ≤ x.2.final_payout)
        (ledger.map (fun q => (q.1, mkPayout s
          (guaranteedPerMember p f g ledger.length)
          (participationPool s p f g ledger)
          (totalRespectToShare s ledger) q.2))))
    rw [hproj] at hp
    exact hp

/-- Witness for C2 at a concrete one-member ledger. -/
theorem claim_ledger_not_mutated_witness :
    ((membersOf (calculate_final_payouts defaultSettings
        [("1", ⟨"A", 5, 5, 1, 0, 0, 0, 0⟩)] (some 100) (some 30) (some 10))).map
      (fun q => (q.1, q.2.stats))).Perm [("1", ⟨"A", 5, 5, 1, 0, 0, 0, 0⟩)] :=
  claim_ledger_not_mutated defaultSettings 100 30 10
    [("1", ⟨"A", 5, 5, 1, 0, 0, 0, 0⟩)] (by decide)

/-- C3 (amended): the cap `sum(final_payout) ≤ prize_total − faction_take`
holds whenever the participation pool is not driven below its zero floor,
i.e. `adjustable_pool − total_assist_payout − total_penalty_deductions ≥ 0`
(plus in-range prize and faction share and a non-negative penalty rate).
When flat assist payments exceed the adjustable pool, the floor at zero
(v3_war_report.py lines 273-275) stops the participation pool from going
negative but the assist payouts are still paid in full, so the sum can
exceed the cap (see the counterexample). -/
theorem claim_payout_cap (s : Settings) (p f g : Int)
    (ledger : List (String × MemberStats))
    (hnd : (keysOf ledger).Nodup)
    (hprize : 0 ≤ p) (hf1 : f ≤ 100)
    (hpen : 0 ≤ s.penalty_per_hit_taken)
    (hpp : 0 ≤ participationPoolRaw s p f g ledger) :
    sumFinalPayout (calculate_final_payouts s ledger (some p) (some f) (some g)) ≤
      (p : ℚ) - factionTake p f := by
  by_cases hne : ledger = []
  · subst hne
    rw [calc_nil]
    have h1 : (0 : ℚ) ≤ (p : ℚ) := by exact_mod_cast hprize
    have h2 : (f : ℚ) ≤ 100 := by exact_mod_cast hf1
    simp only [sumFinalPayout, membersOf, List.map_nil, List.sum_nil]
    unfold factionTake
    nlinarith
  · have hpd : pyDict ledger = ledger := pyDict_of_nodup ledger hnd
    have hempty : (pyDict ledger).isEmpty = false := by
      rw [hpd]
      cases ledger with
      | nil => exact absurd rfl hne
      | cons a l => rfl
    unfold sumFinalPayout
    rw [calc_eq_breakdown s ledger p f g hempty]
    simp only [membersOf, hpd]
    rw [sum_final_sort, sum_map_final, sum_assists_eq, sum_penalty_eq]
    have hlen : ledger.length ≠ 0 := by
      cases ledger with
      | nil => exact absurd rfl hne
      | cons a l => simp
    have hn : (ledger.length : ℚ) ≠ 0 := by exact_mod_cast hlen
    have hgpm : (ledger.length : ℚ) * guaranteedPerMember p f g ledger.length =
        guaranteedPool p f g := by
      unfold guaranteedPerMember
      rw [if_pos (Nat.pos_of_ne_zero hlen), mul_comm, div_mul_cancel₀ _ hn]
    have hppe : participationPool s p f g ledger =
        participationPoolRaw s p f g ledger := by
      unfold participationPool
      rw [if_neg (not_lt.mpr hpp)]
    rw [hppe]
    have hraweq : participationPoolRaw s p f g ledger =
        memberPool p f - guaranteedPool p f g - totalAssistPayout s ledger -
          totalPenaltyDeductions s ledger := by
      unfold participationPoolRaw adjustablePool
      ring
    have htP : 0 ≤ totalPenaltyDeductions s ledger := by
      unfold totalPenaltyDeductions
      have : (0 : ℚ) ≤ (s.penalty_per_hit_taken : ℚ) := by exact_mod_cast hpen
      exact mul_nonneg (Nat.cast_nonneg _) this
    have hmem : memberPool p f = (p : ℚ) - factionTake p f := rfl
    have hS : (ledger.map (fun q =>
        if totalRespectToShare s ledger > 0 then
          respectBasis s q.2 / totalRespectToShare s ledger else 0)).sum = 1 ∨
      (ledger.map (fun q =>
        if totalRespectToShare s ledger > 0 then
          respectBasis s q.2 / totalRespectToShare s ledger else 0)).sum = 0 := by
      by_cases hR : 0 < totalRespectToShare s ledger
      · exact Or.inl (sum_shares_pos s ledger _ rfl hR)
      · exact Or.inr (sum_shares_nonpos s ledger _ hR)
    rcases hS with hS | hS
    · rw [hS, hgpm]
      linarith
    · rw [hS, hgpm]
      linarith

/-- Witness for C3 at a concrete ledger within the no-deficit regime. -/
theorem claim_payout_cap_witness :
    sumFinalPayout (calculate_final_payouts defaultSettings
        [("1", ⟨"A", 5, 5, 1, 0, 0, 0, 0⟩)] (some 100) (some 30) (some 10)) ≤
      (100 : ℚ) - factionTake 100 30 :=
  claim_payout_cap defaultSettings 100 30 10
    [("1", ⟨"A", 5, 5, 1, 0, 0, 0, 0⟩)]
    (by decide) (by decide) (by decide) (by decide)
    (by norm_num [participationPoolRaw, adjustablePool, memberPool, factionTake,
      guaranteedPool, totalAssistPayout, totalPenaltyDeductions, totalAssists,
      totalHitsTaken, defaultSettings])

/-- C3 counterexample: one member with one assist, flat assist payment of
200 against a prize of 100 (faction and guaranteed shares 0): the
participation pool 100 − 200 is floored to 0, yet the assist payout of
200 is paid, so the sum of final payouts is 200 > 100 = prize −
faction_take, violating the claimed cap. -/
theorem claim_payout_cap_counterexample :
    ¬ (sumFinalPayout (calculate_final_payouts
          ⟨true, "flat", 200, 0⟩
          [("1", ⟨"A", 1, 1, 1, 1, 0, 0, 0⟩)]
          (some 100) (some 0) (some 0)) ≤
        (100 : ℚ) - factionTake 100 0) := by
  have hsum : sumFinalPayout (calculate_final_payouts
      ⟨true, "flat", 200, 0⟩
      [("1", ⟨"A", 1, 1, 1, 1, 0, 0, 0⟩)]
      (some 100) (some 0) (some 0)) = 200 := by
    norm_num [sumFinalPayout, calculate_final_payouts, pyDict, pyDictInsert,
      List.foldl_cons, List.foldl_nil, membersOf, sortByFinalDesc,
      List.insertionSort, List.orderedInsert, mkPayout, guaranteedPerMember,
      participationPool, participationPoolRaw, adjustablePool, memberPool,
      factionTake, guaranteedPool, totalAssistPayout, totalPenaltyDeductions,
      totalAssists, totalHitsTaken, totalRespectToShare, respectBasis]
  rw [hsum]
  norm_num [factionTake]

/-- C5 (amended): `calculate_final_payouts` does not fail fast on an
unparsable numeric input: it logs and returns the input `member_stats`
list itself (v3_war_report.py line 241), which the caller then uses as
the member table; and an unrecognized preset name in `main` (lines
504-510) logs a warning and silently falls back to the default settings
(the empty preset) instead of raising a configuration error. -/
theorem claim_config_error_fallback (s : Settings)
    (ledger : List (String × MemberStats)) (f g : Option Int)
    (presets : List (String × Settings)) (nm : String)
    (hmiss : findEntry presets nm = none) :
    calculate_final_payouts s ledger none f g = .invalidInput ledger ∧
    resolve_preset presets (some nm) = defaultSettings := by
  refine ⟨calc_parse_fail s ledger f g, ?_⟩
  simp only [resolve_preset, hmiss]

/-- Witness for C5 at a concrete ledger and preset table. -/
theorem claim_config_error_fallback_witness :
    calculate_final_payouts defaultSettings [("1", initMember "A")] none
        (some 30) (some 10) = .invalidInput [("1", initMember "A")] ∧
    resolve_preset [("Preset_Standard", defaultSettings)]
        (some "Preset_Missing") = defaultSettings :=
  claim_config_error_fallback defaultSettings [("1", initMember "A")]
    (some 30) (some 10) [("Preset_Standard", defaultSettings)]
    "Preset_Missing" (by decide)

/-- C5 counterexample: with an unparsable prize string the function does
not fail and does not return an empty/error result: it returns the
non-empty input ledger itself as its value (the `invalidInput`
constructor records exactly that fallback return), and an unknown preset
resolves to the default settings — so a fallback result is returned,
contradicting the claimed all-or-nothing failure. -/
theorem claim_config_error_counterexample :
    calculate_final_payouts defaultSettings [("1", ⟨"A", 5, 5, 1, 0, 0, 0, 0⟩)]
        none (some 30) (some 10) =
      .invalidInput [("1", ⟨"A", 5, 5, 1, 0, 0, 0, 0⟩)] ∧
    ([("1", (⟨"A", 5, 5, 1, 0, 0, 0, 0⟩ : MemberStats))] ≠
      ([] : List (String × MemberStats))) ∧
    resolve_preset [] (some "Preset_X") = defaultSettings :=
  ⟨rfl, by decide, rfl⟩

/-- C9: with valid numeric inputs an empty active-member ledger yields the
empty breakdown (v3_war_report.py lines 249-251); the guaranteed split is
guarded to 0 at zero participants (line 259); and when the total respect
to share is 0, every member
of the breakdown has a participation payout of 0 (the guard at line 289)
— no division by zero is performed. -/
theorem claim_zero_participant_safety (s : Settings) (p f g : Int)
    (ledger : List (String × MemberStats))
    (hR : totalRespectToShare s (pyDict ledger) = 0) :
    calculate_final_payouts s [] (some p) (some f) (some g) = .breakdown [] ∧
    guaranteedPerMember p f g 0 = 0 ∧
    ∀ q ∈ membersOf (calculate_final_payouts s ledger (some p) (some f) (some g)),
      q.2.participation_payout = 0 := by
  refine ⟨calc_nil s p f g, by simp [guaranteedPerMember], ?_⟩
  intro q hq
  by_cases hempty : (pyDict ledger).isEmpty = true
  · have hcalc : calculate_final_payouts s ledger (some p) (some f) (some g) =
        .breakdown [] := by
      unfold calculate_final_payouts
      simp [hempty]
    rw [hcalc] at hq
    simp [membersOf] at hq
  · have hf : (pyDict ledger).isEmpty = false := by
      cases h2 : (pyDict ledger).isEmpty with
      | true => exact absurd h2 hempty
      | false => rfl
    rw [calc_eq_breakdown s ledger p f g hf] at hq
    simp only [membersOf] at hq
    have hqL := (List.Perm.mem_iff (List.perm_insertionSort _ _)).mp hq
    rcases List.mem_map.mp hqL with ⟨x, _, hx⟩
    rw [← hx]
    show (mkPayout s _ _ _ x.2).participation_payout = 0
    rw [mkPayout_participation, if_neg (by rw [hR]; exact lt_irrefl 0), mul_zero]

/-- Witness for C9: a ledger whose only member has zero respect. -/
theorem claim_zero_participant_safety_witness :
    calculate_final_payouts defaultSettings [] (some 100) (some 30) (some 10) =
        .breakdown [] ∧
    guaranteedPerMember 100 30 10 0 = 0 ∧
    ∀ q ∈ membersOf (calculate_final_payouts defaultSettings
        [("1", ⟨"Z", 0, 0, 0, 1, 0, 0, 0⟩)] (some 100) (some 30) (some 10)),
      q.2.participation_payout = 0 :=
  claim_zero_participant_safety defaultSettings 100 30 10
    [("1", ⟨"Z", 0, 0, 0, 1, 0, 0, 0⟩)]
    (by norm_num [totalRespectToShare, respectBasis, defaultSettings, pyDict,
      pyDictInsert, List.foldl_cons, List.foldl_nil])

/-- C10: the chain-bonus divisor is never zero (so the base-respect
division is always defined), and a missing, null, or zero chain-bonus
modifier is coerced to 1 before dividing, making the base respect equal
to the raw respect gain in those cases. -/
theorem claim_chain_bonus_guard (a : Attack) :
    chainBonusOf a ≠ 0 ∧
    ((a.chain_bonus = none ∨ a.chain_bonus = some 0) →
      chainBonusOf a = 1 ∧ baseRespectOf a = a.respect_gain.getD 0) := by
  constructor
  · unfold chainBonusOf
    cases hc : a.chain_bonus with
    | none => exact one_ne_zero
    | some c =>
        by_cases h0 : c = 0
        · simp [h0]
        · simp [h0]
  · rintro (h | h) <;> unfold chainBonusOf baseRespectOf chainBonusOf <;>
      rw [h] <;> simp

/-- Witness for C10: an attack with a stored chain bonus of 0 and respect
gain 7 has its divisor coerced to 1 and base respect 7. -/
theorem claim_chain_bonus_guard_witness :
    chainBonusOf ⟨"x", 0, some 1, some 10, some 20, some 1, some 2,
        some 7, some 0, none, none⟩ = 1 ∧
    baseRespectOf ⟨"x", 0, some 1, some 10, some 20, some 1, some 2,
        some 7, some 0, none, none⟩ = 7 := by
  have h := (claim_chain_bonus_guard ⟨"x", 0, some 1, some 10, some 20,
    some 1, some 2, some 7, some 0, none, none⟩).2 (Or.inr rfl)
  exact ⟨h.1, h.2.trans rfl⟩


/-- C7: deduplication of the collected attack list by event code keeps
exactly one record per code (the codes of the result are pairwise
distinct), is idempotent (`dedupe (dedupe E) = dedupe E`), and keeps for
each code exactly the last-fetched observation: a record is in the
deduplicated list iff it is the last element of the input carrying its
code. -/
theorem claim_dedupe_properties :
    (∀ E : List Attack, dedupe (dedupe E) = dedupe E) ∧
    (∀ E : List Attack, ((dedupe E).map (fun a => a.code)).Nodup) ∧
    (∀ (E : List Attack) (a : Attack),
      a ∈ dedupe E ↔ lastWithCode E a.code = some a) :=
  ⟨dedupe_idem, dedupe_codes_nodup, mem_dedupe_iff⟩

/-- C8: the pagination loop terminates for every page source: whatever
`page` returns at each cursor (failures, empty pages, pages that repeat
the same terminal timestamp, or advancing pages), a finite amount of
fuel always suffices for the step-indexed loop to return the loop's
value.  The loop stops on an empty or failed page, stops without
re-requesting when the last ended-at timestamp does not advance strictly
past the cursor, and otherwise strictly increases the cursor toward the
bounded end timestamp (the well-founded measure `(endT - cur).toNat`). -/
theorem claim_pagination_terminates (page : Int → Option (List Attack))
    (endT cur : Int) (acc : List Attack) :
    ∃ n : Nat, fetchLoopFuel page n endT cur acc =
      some (fetchLoop page endT cur acc) :=
  ⟨(endT - cur).toNat + 1,
    fetchLoopFuel_eq page _ endT cur acc (Nat.lt_succ_self _)⟩

/-- C6 (amended): the final ledger produced by `process_war_data`
contains exactly the accumulated members whose `respect_gained` is
strictly positive — regardless of payout model.  Non-offensive counters
(assists, hits_taken, defends, stalemates) never qualify a member: the
filter at v3_war_report.py line 221 tests `respect_gained > 0` only. -/
theorem claim_active_filter (factions : List (Int × FactionInfo))
    (attacks : List Attack) (our : Int) (pd : ProcessedData)
    (h : process_war_data factions attacks our = some pd) :
    ∀ q : String × MemberStats,
      q ∈ pd.member_stats ↔
        (q ∈ accumulate_attacks our
            (((opponentEntry factions our).map (fun p => p.1)).getD 0)
            (initial_member_stats factions our) attacks ∧
          0 < q.2.respect_gained) := by
  intro q
  unfold process_war_data at h
  cases hop : opponentEntry factions our with
  | none => rw [hop] at h; cases h
  | some op =>
      rw [hop] at h
      dsimp only at h
      by_cases hz : op.1 = 0
      · rw [if_pos hz] at h; cases h
      · rw [if_neg hz] at h
        have hms : pd.member_stats = final_ledger factions attacks our op.1 := by
          rw [← Option.some.inj h]
        rw [hms]
        unfold final_ledger sortByRespectDesc
        rw [List.Perm.mem_iff (List.perm_insertionSort _ _)]
        unfold active_ledger
        rw [List.mem_filter]
        simp [hop]

/-- Witness for C6 at a concrete war: one rostered member who earned
respect 5; the theorem's characterization holds for that member of the
produced data. -/
theorem claim_active_filter_witness :
    ("10", (⟨"Alice", 5, 5, 1, 0, 0, 0, 0⟩ : MemberStats)) ∈
        (ProcessedData.mk [("10", ⟨"Alice", 5, 5, 1, 0, 0, 0, 0⟩)] "Us"
          "Them").member_stats ↔
      (("10", (⟨"Alice", 5, 5, 1, 0, 0, 0, 0⟩ : MemberStats)) ∈
          accumulate_attacks 1
            (((opponentEntry [(1, ⟨"Us", [("10", "Alice")]⟩),
                (2, ⟨"Them", []⟩)] 1).map (fun p => p.1)).getD 0)
            (initial_member_stats [(1, ⟨"Us", [("10", "Alice")]⟩),
                (2, ⟨"Them", []⟩)] 1)
            [⟨"a2", 0, some 1, some 10, some 99, some 1, some 2, some 5,
              none, some "Attacked", none⟩] ∧
        0 < (("10", (⟨"Alice", 5, 5, 1, 0, 0, 0, 0⟩ : MemberStats))).2.respect_gained) :=
  claim_active_filter [(1, ⟨"Us", [("10", "Alice")]⟩), (2, ⟨"Them", []⟩)]
    [⟨"a2", 0, some 1, some 10, some 99, some 1, some 2, some 5, none,
      some "Attacked", none⟩] 1
    (ProcessedData.mk [("10", ⟨"Alice", 5, 5, 1, 0, 0, 0, 0⟩)] "Us" "Them")
    (by
      norm_num [process_war_data, opponentEntry, final_ledger, active_ledger,
        sortByRespectDesc, initial_member_stats, initMember, accumulate_attacks,
        v3_apply_attack, updateEntry, pyStr, baseRespectOf, chainBonusOf,
        List.insertionSort, List.orderedInsert, List.find?, List.foldl,
        List.filter, List.any,
        show toString (10 : Int) = "10" from rfl,
        show toString (99 : Int) = "99" from rfl]
      decide)
    ("10", ⟨"Alice", 5, 5, 1, 0, 0, 0, 0⟩)

/-- C6 counterexample: a rostered member records an offensive ranked-war
"Assist" event with zero respect gain: the accumulated ledger shows a
non-zero counter for them (hits_made = 1, assists = 1) and the payout
model does credit assists, yet the final ledger of `process_war_data` is
empty — the member is excluded because the filter only tests
`respect_gained > 0`, contradicting the claimed "any non-zero counter"
notion of activity. -/
theorem claim_active_filter_counterexample :
    process_war_data [(1, ⟨"Us", [("10", "Alice")]⟩), (2, ⟨"Them", []⟩)]
        [⟨"a1", 0, some 1, some 10, some 99, some 1, some 2, some 0, none,
          some "Assist", none⟩] 1 =
      some (ProcessedData.mk [] "Us" "Them") ∧
    accumulate_attacks 1 2
        (initial_member_stats [(1, ⟨"Us", [("10", "Alice")]⟩),
          (2, ⟨"Them", []⟩)] 1)
        [⟨"a1", 0, some 1, some 10, some 99, some 1, some 2, some 0, none,
          some "Assist", none⟩] =
      [("10", ⟨"Alice", 0, 0, 1, 1, 0, 0, 0⟩)] := by
  constructor
  · norm_num [process_war_data, opponentEntry, final_ledger, active_ledger,
      sortByRespectDesc, initial_member_stats, initMember, accumulate_attacks,
      v3_apply_attack, updateEntry, pyStr, baseRespectOf, chainBonusOf,
      List.insertionSort, List.orderedInsert, List.find?, List.foldl,
      List.filter, List.any,
      show toString (10 : Int) = "10" from rfl,
      show toString (99 : Int) = "99" from rfl]
  · norm_num [initial_member_stats, initMember, accumulate_attacks,
      v3_apply_attack, updateEntry, pyStr, baseRespectOf, chainBonusOf,
      List.find?, List.foldl, List.any,
      show toString (10 : Int) = "10" from rfl,
      show toString (99 : Int) = "99" from rfl]

/-- C4 (amended): only the v1 classifier (`war_report.py` lines 145-148)
credits a ranked-war offensive event whose attacker is absent from the
ledger: it appends a synthetic entry keyed by the attacker id, named
from the event's own `attacker_name` field (falling back to
"Unknown (Ex-member)" when that field is missing), carrying the event's
respect gain.  (No hit counter exists in v1.)  The v3 classifier instead
drops such events entirely — see the counterexample. -/
theorem claim_former_member_credit (our op : Int)
    (stats : List (String × V1Stats)) (a : Attack) (i j : Int)
    (hai : a.attacker_id = some i) (hdi : a.defender_id = some j)
    (hoff : a.attacker_faction = some our ∧ a.defender_faction = some op)
    (hrw : a.ranked_war = some 1)
    (habs : stats.any (fun p => decide (p.1 = toString i)) = false) :
    v1_apply_attack our op stats a =
      stats ++ [(toString i,
        { respect_gained := a.respect_gain.getD 0,
          name := a.attacker_name.getD "Unknown (Ex-member)" })] := by
  unfold v1_apply_attack
  rw [if_neg (by simp [hai, hdi])]
  rw [if_pos ⟨hoff, hrw⟩]
  simp [pyStr, hai, habs]

/-- Witness for C4: attacker 99 is not on the two-entry ledger; the v1
classifier appends the synthetic entry ("99", respect 5, name "Bob"). -/
theorem claim_former_member_credit_witness :
    v1_apply_attack 1 2 [("10", ⟨3, "Alice"⟩)]
        ⟨"a3", 0, some 1, some 99, some 20, some 1, some 2, some 5, none,
          some "Attacked", some "Bob"⟩ =
      [("10", ⟨3, "Alice"⟩), ("99", ⟨5, "Bob"⟩)] := by
  have h := claim_former_member_credit 1 2 [("10", ⟨3, "Alice"⟩)]
    ⟨"a3", 0, some 1, some 99, some 20, some 1, some 2, some 5, none,
      some "Attacked", some "Bob"⟩ 99 20 rfl rfl ⟨rfl, rfl⟩ rfl (by decide)
  rw [h]
  rfl

/-- C4 counterexample: in `v3_war_report.py` (lines 190-204) a ranked-war
offensive event whose attacker (id 99) is absent from the roster leaves
the ledger unchanged — no synthetic entry is created and the event's
respect 5 is dropped; the whole pipeline then produces an empty final
ledger.  This contradicts the claim that classification still credits
such attackers. -/
theorem claim_former_member_credit_counterexample :
    v3_apply_attack 1 2 [("10", initMember "Alice")]
        ⟨"a3", 0, some 1, some 99, some 20, some 1, some 2, some 5, none,
          some "Attacked", none⟩ =
      [("10", initMember "Alice")] ∧
    process_war_data [(1, ⟨"Us", [("10", "Alice")]⟩), (2, ⟨"Them", []⟩)]
        [⟨"a3", 0, some 1, some 99, some 20, some 1, some 2, some 5, none,
          some "Attacked", none⟩] 1 =
      some (ProcessedData.mk [] "Us" "Them") := by
  constructor
  · norm_num [v3_apply_attack, pyStr, updateEntry,
      show toString (99 : Int) = "99" from rfl,
      show toString (20 : Int) = "20" from rfl]
    intro hcon
    exact absurd hcon (by decide)
  · norm_num [process_war_data, opponentEntry, final_ledger, active_ledger,
      sortByRespectDesc, initial_member_stats, initMember, accumulate_attacks,
      v3_apply_attack, updateEntry, pyStr, baseRespectOf, chainBonusOf,
      List.insertionSort, List.orderedInsert, List.find?, List.foldl,
      List.filter, List.any,
      show toString (10 : Int) = "10" from rfl,
      show toString (99 : Int) = "99" from rfl]

end TornReport
